import Mathlib

/-!
Shallow embedding of the svg-to-png repository's orchestration core, and
proofs of the specification's claims about it.

Sources embedded:
* `src/utils/svg.ts` — `parseSvgAttributes`, `parseViewBox`,
  `convertLengthToPx`, `deriveDimensions`;
* `src/utils/raster.ts` — `convertPngBuffer`;
* `src/config.ts` — `SUPPORTED_FORMATS`, `DEFAULT_VIEWPORT_SIZE`;
* `src/desktop/conversionUtils.ts` — `sanitizeNameHint`, `reserveOutputName`;
* `src/cli.ts` — `mergeRenderOptions`, the post-merge format default in
  `executeCli`, and the bounded-concurrency worker-pool scheduler.

Modelling conventions: a JavaScript number is a `JsNumber` — an exact
rational, `NaN`, or a signed infinity — so `Number('Infinity')`, the `NaN`
produced by multiplying by a non-number, and their propagation through
`??`, `Math.round` and `Math.max` are all represented.  Finite arithmetic
is exact: the model does not reproduce IEEE-754 rounding of finite-syntax
literals or overflow of finite operands to `Infinity` (e.g. a 309-digit
literal is a finite rational here but `Infinity` in JS); every theorem
below that quantifies over numbers either holds of both the finite and the
infinite classification or takes the parsed value as a hypothesis, so none
depends on where that boundary falls.  There is no negative zero: the only
division the source performs with a zero divisor is unreachable behind its
`!== 0`/truthiness guards.  A property read on an object literal resolves
the prototype chain: `UNIT_TO_PX[unit]` can hit the inherited
`Object.prototype.constructor`.  JavaScript `undefined` is `Option.none`;
`??` skips only `undefined` (a `NaN` operand is kept); JS truthiness on a
`number | undefined` value is "defined, nonzero and not `NaN`", and on a
string it is "defined and nonempty".  Fallible code (`throw`) returns
`Option`/`Except`.  Regular expressions from the source are implemented as
equivalent recursive character scanners.
-/

namespace SvgToPng

/-! ## JavaScript string primitives -/

/-- Whitespace for the purposes of `String.prototype.trim` (ASCII subset;
the sources never feed exotic Unicode whitespace into `trim`). -/
def isJsWhitespace (c : Char) : Bool :=
  c = ' ' || c = '\t' || c = '\n' || c = '\r' || c = '\x0b' || c = '\x0c'

/-- `value.trim()` on a character list. -/
def jsTrimList (l : List Char) : List Char :=
  ((l.dropWhile isJsWhitespace).reverse.dropWhile isJsWhitespace).reverse

/-- `value.trim()`. -/
def jsTrim (s : String) : String :=
  String.mk (jsTrimList s.toList)

/-- Numeric value of a decimal digit list (most significant first). -/
def digitsVal (l : List Char) : ℕ :=
  l.foldl (fun acc c => 10 * acc + (c.toNat - '0'.toNat)) 0

/-- Value of a fractional digit block: `digitsVal l / 10 ^ l.length`. -/
def fracVal (l : List Char) : ℚ :=
  (digitsVal l : ℚ) / (10 : ℚ) ^ l.length

/-! ## JavaScript numbers -/

/-- A JavaScript number: an exact finite rational, `NaN`, or a signed
infinity.  Finite values carry no IEEE-754 rounding (see the header). -/
inductive JsNumber where
  | finite (q : ℚ)
  | nan
  | posInf
  | negInf
  deriving Repr, DecidableEq

/-- `Number.isNaN`. -/
def JsNumber.isNaN : JsNumber → Bool
  | .nan => true
  | _ => false

/-- JS truthiness of a number: `0` and `NaN` are falsy, infinities and
nonzero finite values truthy. -/
def truthyNum : JsNumber → Bool
  | .finite q => q != 0
  | .nan => false
  | .posInf => true
  | .negInf => true

/-- JS truthiness of a `number | undefined` variable. -/
def truthyJs : Option JsNumber → Bool
  | none => false
  | some v => truthyNum v

/-- JavaScript multiplication on numbers (finite arithmetic exact). -/
def jsMul : JsNumber → JsNumber → JsNumber
  | .nan, _ => .nan
  | _, .nan => .nan
  | .finite a, .finite b => .finite (a * b)
  | .finite a, .posInf => if a = 0 then .nan else if 0 < a then .posInf else .negInf
  | .posInf, .finite b => if b = 0 then .nan else if 0 < b then .posInf else .negInf
  | .finite a, .negInf => if a = 0 then .nan else if 0 < a then .negInf else .posInf
  | .negInf, .finite b => if b = 0 then .nan else if 0 < b then .negInf else .posInf
  | .posInf, .posInf => .posInf
  | .posInf, .negInf => .negInf
  | .negInf, .posInf => .negInf
  | .negInf, .negInf => .posInf

/-- JavaScript division on numbers.  The zero-divisor arm assumes the
dividend's zero is `+0` (no negative zero in the model); the source only
divides behind `!== 0`/truthiness guards on the divisor, so that arm is
unreachable from the embedded code paths. -/
def jsDiv : JsNumber → JsNumber → JsNumber
  | .nan, _ => .nan
  | _, .nan => .nan
  | .finite a, .finite b =>
    if b = 0 then (if a = 0 then .nan else if 0 < a then .posInf else .negInf)
    else .finite (a / b)
  | .finite _, .posInf => .finite 0
  | .finite _, .negInf => .finite 0
  | .posInf, .finite b => if 0 ≤ b then .posInf else .negInf
  | .negInf, .finite b => if 0 ≤ b then .negInf else .posInf
  | .posInf, .posInf => .nan
  | .posInf, .negInf => .nan
  | .negInf, .posInf => .nan
  | .negInf, .negInf => .nan

/-- JavaScript `Math.round`: finite numbers round half toward `+∞`;
`NaN` and the infinities pass through. -/
def jsRound : JsNumber → JsNumber
  | .finite q => .finite ((⌊q + 1 / 2⌋ : ℤ) : ℚ)
  | x => x

/-- JavaScript `Math.max(1, x)`: `NaN` wins, `+∞` stays, `-∞` loses to 1. -/
def jsMax1 : JsNumber → JsNumber
  | .finite q => .finite (max 1 q)
  | .nan => .nan
  | .posInf => .posInf
  | .negInf => .finite 1

/-! ## `src/utils/svg.ts` -/

/-- Result of the property read `UNIT_TO_PX[unit]` on the plain object
literal: an own table entry, the inherited `Object.prototype.constructor`
function, or `undefined`. -/
inductive UnitLookup where
  | num (factor : ℚ)
  | objectCtor
  | absent
  deriving Repr, DecidableEq

/-- The property read `UNIT_TO_PX[unit]`: the own entries are the source's
decimal literals; a missing key falls through to the prototype chain.  The
unit string reaching this read has been lowercased and matched `[a-z%]*`,
and `constructor` is the only `Object.prototype` property name consisting
solely of lowercase letters (the others contain uppercase letters or
underscores), so it is the only reachable inherited property. -/
def UNIT_TO_PX (unit : String) : UnitLookup :=
  if unit = "px" then .num 1
  else if unit = "in" then .num 96
  else if unit = "cm" then .num (37.7952755906 : ℚ)
  else if unit = "mm" then .num (3.77952755906 : ℚ)
  else if unit = "pt" then .num (1.33333333333 : ℚ)
  else if unit = "pc" then .num 16
  else if unit = "constructor" then .objectCtor
  else .absent

/-- `ToNumber` of a lookup result, as multiplication coerces it: a number
is itself, the inherited constructor function coerces to `NaN`. -/
def UnitLookup.toNumber : UnitLookup → JsNumber
  | .num f => .finite f
  | .objectCtor => .nan
  | .absent => .nan

/-- Matcher for the unsigned part `\d*\.?\d+` of the numeric capture group
of `convertLengthToPx`, required to consume the whole list; returns its
decimal value. -/
def parseUnsignedNumber (body : List Char) : Option ℚ :=
  match body.dropWhile Char.isDigit with
  | [] =>
    if (body.takeWhile Char.isDigit).isEmpty then none
    else some (digitsVal (body.takeWhile Char.isDigit) : ℚ)
  | '.' :: rest2 =>
    if (rest2.dropWhile Char.isDigit).isEmpty && !(rest2.takeWhile Char.isDigit).isEmpty then
      some ((digitsVal (body.takeWhile Char.isDigit) : ℚ) + fracVal (rest2.takeWhile Char.isDigit))
    else none
  | _ => none

/-- Matcher for the numeric capture group `-?\d*\.?\d+` of
`convertLengthToPx`: optional minus sign, then the unsigned part.  Its value
is `Number` of the capture, which is never `NaN` for strings of this
shape. -/
def parseLengthNumber (l : List Char) : Option ℚ :=
  match l with
  | '-' :: rest => (parseUnsignedNumber rest).map (fun q => -q)
  | _ => parseUnsignedNumber l

/-- Characters admissible in the unit capture group `[a-z%]*` (the regex is
case-insensitive). -/
def isUnitChar (c : Char) : Bool :=
  c.isAlpha || c = '%'

/-- The letters matched by the case-insensitive `[a-z]` class: the ASCII
alphabet, spelt out so facts about each letter are decidable. -/
def asciiLetterChars : List Char :=
  "abcdefghijklmnopqrstuvwxyzABCDEFGHIJKLMNOPQRSTUVWXYZ".toList

/-- ASCII lowercasing of a string, as `String.prototype.toLowerCase` acts on
the ASCII unit/attribute names that reach it here. -/
def jsToLower (s : String) : String :=
  String.mk (s.toList.map Char.toLower)

/-- Embedding of `convertLengthToPx(value?: string)`.  The anchored regex
`^(-?\d*\.?\d+)([a-z%]*)$` is realised by splitting the trimmed string at
the first unit character (the numeric capture can contain only digits, `-`
and `.`, none of which is a unit character, so the split point is forced),
then requiring the prefix to match the numeric group and every suffix
character to be a unit character. -/
def convertLengthToPx (value : Option String) : Option JsNumber :=
  match value with
  | none => none
  | some s =>
    if s = "" then none
    else
      let trimmed := jsTrimList s.toList
      if trimmed.isEmpty then none
      else
        let numPart := trimmed.takeWhile (fun c => !isUnitChar c)
        let unitPart := trimmed.dropWhile (fun c => !isUnitChar c)
        if !unitPart.all isUnitChar then none
        else
          match parseLengthNumber numPart with
          | none => none
          | some q =>
            let unit :=
              if unitPart.isEmpty then "px" else jsToLower (String.mk unitPart)
            if unit = "%" then none
            else
              let factor :=
                match UNIT_TO_PX unit with
                | .absent => UnitLookup.num 1
                | v => v
              some (jsMul (.finite q) factor.toNumber)

/-- The `viewBox` record of `src/utils/svg.ts`.  Its fields come from
`Number(part)`, which can yield an infinity, so they are `JsNumber`
(`NaN` is excluded by the `isNaN` filter in `parseViewBox`). -/
structure ViewBoxDefinition where
  minX : JsNumber
  minY : JsNumber
  width : JsNumber
  height : JsNumber
  deriving Repr, DecidableEq

/-- Delimiter class of the `split(/[\s,]+/)` call in `parseViewBox`. -/
def isViewBoxDelim (c : Char) : Bool :=
  isJsWhitespace c || c = ','

/-- `String.prototype.split` against the greedy delimiter-run regex
`[\s,]+`: pieces between maximal delimiter runs, with an empty piece when
the string starts or ends with a delimiter, as in JavaScript.  `inDelim`
records that the scanner stands inside a delimiter run whose piece has
already been emitted, which realises the run's "greedy" consumption with
structural recursion. -/
def splitDelimAux : Bool → List Char → List Char → List (List Char)
  | _, acc, [] => [acc.reverse]
  | true, acc, c :: rest =>
    if isViewBoxDelim c then
      splitDelimAux true acc rest
    else
      splitDelimAux false (c :: acc) rest
  | false, acc, c :: rest =>
    if isViewBoxDelim c then
      acc.reverse :: splitDelimAux true [] rest
    else
      splitDelimAux false (c :: acc) rest

/-- Split a character list on `[\s,]+` runs. -/
def splitDelim (l : List Char) : List (List Char) :=
  splitDelimAux false [] l

/-- Value of a hexadecimal digit list (most significant first); used for
the non-decimal integer literals `Number` accepts. -/
def radixDigitsVal (radix : ℕ) (l : List Char) : ℕ :=
  l.foldl (fun acc c =>
    radix * acc +
      (if c.isDigit then c.toNat - '0'.toNat
       else if 'a' ≤ c ∧ c ≤ 'f' then c.toNat - 'a'.toNat + 10
       else c.toNat - 'A'.toNat + 10)) 0

/-- Digit class of a `Number` non-decimal literal for a given radix. -/
def isRadixDigit (radix : ℕ) (c : Char) : Bool :=
  if radix = 16 then c.isDigit || ('a' ≤ c && c ≤ 'f') || ('A' ≤ c && c ≤ 'F')
  else if radix = 8 then '0' ≤ c && c ≤ '7'
  else c = '0' || c = '1'

/-- A `0x`/`0o`/`0b` literal body (after the prefix): nonempty digits of
the radix, to the end. -/
def jsNonDecimal (radix : ℕ) (body : List Char) : JsNumber :=
  if !body.isEmpty && body.all (isRadixDigit radix) then
    .finite (radixDigitsVal radix body : ℚ)
  else .nan

/-- JavaScript `Number(part)` on a viewBox token (tokens contain no
whitespace or commas).  The empty string converts to `0`; the `Infinity`
literals give the infinities; `0x`/`0o`/`0b` literals (never signed) and
signed decimal literals with optional fraction and exponent give finite
values; anything else is `NaN`.  Finite values are exact rationals (see
the header for the float boundary). -/
def jsNumber (l : List Char) : JsNumber :=
  if l.isEmpty then .finite 0
  else if l.take 2 = ['0', 'x'] ∨ l.take 2 = ['0', 'X'] then
    jsNonDecimal 16 (l.drop 2)
  else if l.take 2 = ['0', 'o'] ∨ l.take 2 = ['0', 'O'] then
    jsNonDecimal 8 (l.drop 2)
  else if l.take 2 = ['0', 'b'] ∨ l.take 2 = ['0', 'B'] then
    jsNonDecimal 2 (l.drop 2)
  else
    let (neg, body) :=
      match l with
      | '-' :: rest => (true, rest)
      | '+' :: rest => (false, rest)
      | _ => (false, l)
    if body = "Infinity".toList then
      if neg then .negInf else .posInf
    else
      let intPart := body.takeWhile Char.isDigit
      let rest1 := body.dropWhile Char.isDigit
      let afterMantissa : Option (ℚ × List Char) :=
        match rest1 with
        | '.' :: rest2 =>
          let fracPart := rest2.takeWhile Char.isDigit
          let rest3 := rest2.dropWhile Char.isDigit
          if intPart.isEmpty && fracPart.isEmpty then none
          else some ((digitsVal intPart : ℚ) + fracVal fracPart, rest3)
        | _ =>
          if intPart.isEmpty then none
          else some ((digitsVal intPart : ℚ), rest1)
      match afterMantissa with
      | none => .nan
      | some (mantissa, rest) =>
        let applySign : ℚ → ℚ := fun q => if neg then -q else q
        match rest with
        | [] => .finite (applySign mantissa)
        | e :: rest4 =>
          if e = 'e' || e = 'E' then
            let (eneg, ebody) :=
              match rest4 with
              | '-' :: r => (true, r)
              | '+' :: r => (false, r)
              | _ => (false, rest4)
            let eDigits := ebody.takeWhile Char.isDigit
            let eRest := ebody.dropWhile Char.isDigit
            if eDigits.isEmpty || !eRest.isEmpty then .nan
            else
              let ex : ℤ := if eneg then -(digitsVal eDigits : ℤ) else (digitsVal eDigits : ℤ)
              .finite (applySign (mantissa * (10 : ℚ) ^ ex))
          else .nan

/-- Embedding of `parseViewBox(value?: string)`: falsy input is absent; the
trimmed value is split on `[\s,]+`; exactly four tokens, none `NaN`
(infinite tokens pass the filter, as in the source). -/
def parseViewBox (value : Option String) : Option ViewBoxDefinition :=
  match value with
  | none => none
  | some s =>
    if s = "" then none
    else
      let parts := (splitDelim (jsTrimList s.toList)).map jsNumber
      if parts.length != 4 || parts.any JsNumber.isNaN then none
      else
        match parts with
        | [a, b, c, d] => some ⟨a, b, c, d⟩
        | _ => none

/-! ### `parseSvgAttributes` -/

/-- Word characters for the `\b` boundary after `<svg`. -/
def isWordChar (c : Char) : Bool :=
  c.isAlphanum || c = '_'

/-- Matches one candidate position of the root-tag regex `<svg\b([^>]*)>`
(case-insensitive): the list must start with `<svg`, followed by a
non-word character, and the capture runs to the first `>`. -/
def matchSvgTagHere (l : List Char) : Option (List Char) :=
  match l with
  | '<' :: a :: b :: c :: rest =>
    if a.toLower = 's' && b.toLower = 'v' && c.toLower = 'g' then
      match rest with
      | [] => none
      | d :: _ =>
        if isWordChar d then none
        else
          let capture := rest.takeWhile (fun x => x ≠ '>')
          let remainder := rest.dropWhile (fun x => x ≠ '>')
          if remainder.isEmpty then none else some capture
    else none
  | _ => none

/-- Scans the markup left to right for the first position where
`<svg\b([^>]*)>` matches, returning the capture group. -/
def findSvgTag : List Char → Option (List Char)
  | [] => none
  | c :: rest =>
    match matchSvgTagHere (c :: rest) with
    | some capture => some capture
    | none => findSvgTag rest

/-- Key characters of the attribute regex: `[^\s=]`. -/
def isAttrKeyChar (c : Char) : Bool :=
  !isJsWhitespace c && c ≠ '='

/-- Characters of an unquoted attribute value: `[^\s"'>]`. -/
def isBareValueChar (c : Char) : Bool :=
  !isJsWhitespace c && c ≠ '"' && c ≠ '\'' && c ≠ '>'

/-- `dropWhile` bundled with its length bound, so the scanners below can
recurse on a value-matcher's remainder without dependent matching. -/
def dropWhileLe (p : Char → Bool) (l : List Char) :
    {r : List Char // r.length ≤ l.length} :=
  ⟨l.dropWhile p, (List.dropWhile_suffix p).length_le⟩

/-- The optional value group `(?:\s*=\s*(?:"([^"]*)"|'([^']*)'|([^\s"'>]+)))?`
after a key: skip spaces, require `=`, skip spaces, then a double-quoted,
single-quoted or bare value.  `none` when the whole group fails (the regex
then backtracks to the bare key and scanning resumes right after it).  The
returned remainder carries a length bound for the scanner's termination. -/
def matchAttrValue (l : List Char) :
    Option (List Char × {r : List Char // r.length ≤ l.length}) :=
  match dropWhileLe isJsWhitespace l with
  | ⟨'=' :: rest1, h1⟩ =>
    match dropWhileLe isJsWhitespace rest1 with
    | ⟨'"' :: rest2, h2⟩ =>
      (match dropWhileLe (fun c => c ≠ '"') rest2 with
        | ⟨_ :: rest3, h3⟩ =>
          some (rest2.takeWhile (fun c => c ≠ '"'), ⟨rest3, by
            simp only [List.length_cons] at h1 h2 h3
            omega⟩)
        | ⟨[], _⟩ => none)
    | ⟨'\'' :: rest2, h2⟩ =>
      (match dropWhileLe (fun c => c ≠ '\'') rest2 with
        | ⟨_ :: rest3, h3⟩ =>
          some (rest2.takeWhile (fun c => c ≠ '\''), ⟨rest3, by
            simp only [List.length_cons] at h1 h2 h3
            omega⟩)
        | ⟨[], _⟩ => none)
    | ⟨rest2, h2⟩ =>
      if (rest2.takeWhile isBareValueChar).isEmpty then none
      else
        some (rest2.takeWhile isBareValueChar, ⟨rest2.dropWhile isBareValueChar, by
          have hle : (List.dropWhile isBareValueChar rest2).length ≤ rest2.length :=
            (List.dropWhile_suffix isBareValueChar).length_le
          simp only [List.length_cons] at h1
          omega⟩)
  | _ => none

/-- The `exec` loop over the captured attribute string: skip characters that
cannot start a key, read the maximal key, optionally read a value, lowercase
the key, and continue.  Termination: each iteration consumes at least the
key's first character. -/
def parseAttrList : List Char → List (String × String)
  | [] => []
  | c :: rest =>
    if isAttrKeyChar c then
      match matchAttrValue (rest.dropWhile isAttrKeyChar) with
      | some (value, ⟨afterValue, hAV⟩) =>
        (jsToLower (String.mk (c :: rest.takeWhile isAttrKeyChar)), String.mk value)
          :: parseAttrList afterValue
      | none =>
        (jsToLower (String.mk (c :: rest.takeWhile isAttrKeyChar)), "")
          :: parseAttrList (rest.dropWhile isAttrKeyChar)
    else
      parseAttrList rest
termination_by l => l.length
decreasing_by
  · simp only [List.length_cons]
    exact Nat.lt_succ_of_le (le_trans hAV (List.dropWhile_suffix isAttrKeyChar).length_le)
  · simp only [List.length_cons]
    exact Nat.lt_succ_of_le (List.dropWhile_suffix isAttrKeyChar).length_le
  · simp only [List.length_cons]
    exact Nat.lt_succ_self _

/-- Embedding of `parseSvgAttributes(svg)`: find the root tag's attribute
string and scan it into (lowercased) key/value pairs, kept in scan order.
The source's thrown error ("SVG markup must include a root <svg> element")
is `none`. -/
def parseSvgAttributes (svg : String) : Option (List (String × String)) :=
  (findSvgTag svg.toList).map parseAttrList

/-- Reading `attributes[key]` from the scan list: in the source, later
occurrences of a key overwrite earlier ones, so the last binding wins. -/
def getAttr : List (String × String) → String → Option String
  | [], _ => none
  | (k, v) :: rest, key =>
    match getAttr rest key with
    | some v' => some v'
    | none => if k = key then some v else none

/-- The `DEFAULT_VIEWPORT_SIZE` constant of `src/config.ts`. -/
def DEFAULT_VIEWPORT_SIZE : ℚ := 512

/-- The explicit-override record `SvgDimensionOverrides`.  The TypeScript
type is `number | undefined`, so an override can carry any JS number,
`NaN` included — nothing in the source filters it. -/
structure SvgDimensionOverrides where
  width : Option JsNumber := none
  height : Option JsNumber := none
  deriving Repr, DecidableEq

/-- The result record `DerivedDimensions`.  `Math.round`/`Math.max` keep
`NaN` and `+∞` of the resolved value, so a side is a JS number, not always
an integer. -/
structure DerivedDimensions where
  width : JsNumber
  height : JsNumber
  viewBox : Option ViewBoxDefinition
  deriving Repr, DecidableEq

/-- What the specification asserts of one resolved side: a finite integer
value of at least 1. -/
def isPositiveIntSide (x : JsNumber) : Prop :=
  ∃ k : ℤ, 1 ≤ k ∧ x = .finite (k : ℚ)

/-- Embedding of `deriveDimensions(svg, overrides)`, mutation modelled by
sequential rebinding.  `??` is `Option.or`/`getD` (it skips only
`undefined`, keeping `NaN`), while the `if (… && … )` guards use
truthiness, so a defined zero or `NaN` is falsy there; the `!== 0` tests
are structural disequality with the number 0, which agrees with JS strict
inequality on every value that reaches them. -/
def deriveDimensions (svg : String) (overrides : SvgDimensionOverrides) :
    Option DerivedDimensions :=
  match parseSvgAttributes svg with
  | none => none
  | some attributes =>
    let widthAttr := convertLengthToPx (getAttr attributes "width")
    let heightAttr := convertLengthToPx (getAttr attributes "height")
    let viewBox := parseViewBox (getAttr attributes "viewbox")
    let viewBoxRat : Option JsNumber :=
      match viewBox with
      | some vb => if vb.height ≠ .finite 0 then some (jsDiv vb.width vb.height) else none
      | none => none
    let attributeRat : Option JsNumber :=
      match widthAttr, heightAttr with
      | some w, some h =>
        if truthyNum w ∧ truthyNum h ∧ h ≠ .finite 0 then some (jsDiv w h) else none
      | _, _ => none
    let rat := viewBoxRat.or attributeRat
    let width0 := overrides.width.or widthAttr
    let height0 := overrides.height.or heightAttr
    let wh : Option JsNumber × Option JsNumber :=
      if truthyJs width0 && !truthyJs height0 && truthyJs rat then
        (width0, some (jsDiv (width0.getD .nan) (rat.getD .nan)))
      else if !truthyJs width0 && truthyJs height0 && truthyJs rat then
        (some (jsMul (height0.getD .nan) (rat.getD .nan)), height0)
      else
        (width0, height0)
    let width1 := wh.1
    let height1 := wh.2
    let width2 : Option JsNumber :=
      match viewBox with
      | some vb =>
        if !truthyJs width1 && truthyNum vb.width then some vb.width else width1
      | none => width1
    let height2 : Option JsNumber :=
      match viewBox with
      | some vb =>
        if !truthyJs height1 && truthyNum vb.height then some vb.height else height1
      | none => height1
    let resolvedWidth := (width2.or height2).getD (.finite DEFAULT_VIEWPORT_SIZE)
    let resolvedHeight := (height2.or width2).getD (.finite DEFAULT_VIEWPORT_SIZE)
    some
      { width := jsMax1 (jsRound resolvedWidth)
        height := jsMax1 (jsRound resolvedHeight)
        viewBox := viewBox }

/-! ## `src/desktop/conversionUtils.ts` -/

/-- Character class `[a-zA-Z0-9._-]` kept by `sanitizeNameHint`. -/
def isSanitizedChar (c : Char) : Bool :=
  c.isAlphanum || c = '.' || c = '_' || c = '-'

/-- The `replace(/[^a-zA-Z0-9._-]+/g, '-')` step: each maximal run of
disallowed characters collapses to a single `-`.  `inRun` records standing
inside a disallowed run whose `-` has already been emitted. -/
def collapseDisallowedAux : Bool → List Char → List Char
  | _, [] => []
  | inRun, c :: rest =>
    if isSanitizedChar c then
      c :: collapseDisallowedAux false rest
    else if inRun then
      collapseDisallowedAux true rest
    else
      '-' :: collapseDisallowedAux true rest

/-- Collapse every maximal disallowed-character run to one `-`. -/
def collapseDisallowedRuns (l : List Char) : List Char :=
  collapseDisallowedAux false l

/-- The `replace(/^-+|-+$/g, '')` step: strip leading and trailing `-` runs. -/
def trimDashes (l : List Char) : List Char :=
  ((l.dropWhile (fun c => c = '-')).reverse.dropWhile (fun c => c = '-')).reverse

/-- Embedding of `sanitizeNameHint(value, fallback)`; a missing or empty
(falsy) value, and a value that cleans to the empty string, fall back. -/
def sanitizeNameHint (value : Option String) (fallback : String) : String :=
  match value with
  | none => fallback
  | some s =>
    if s = "" then fallback
    else
      let cleaned := trimDashes (collapseDisallowedRuns (jsTrimList s.toList))
      if cleaned.isEmpty then fallback else String.mk cleaned

/-- The shared occurrence map `Map<string, number>`, modelled as a total
count function (the source reads it only through `map.get(k) ?? 0`, so a
missing key and a zero count are indistinguishable, and it never stores 0). -/
def NameMap : Type := String → ℕ

/-- The empty occurrence map (`new Map()`). -/
def NameMap.empty : NameMap := fun _ => 0

/-- Embedding of `reserveOutputName(map, hint)`: sanitize with fallback
`output`, bump the occurrence count, keep the stem on first occurrence and
append `-n` (the new count) from the second on.  Returns the updated map
together with the allocated stem. -/
def reserveOutputName (map : NameMap) (hint : String) : NameMap × String :=
  let sanitized := sanitizeNameHint (some hint) "output"
  let currentCount := map sanitized
  let updated : NameMap := fun k => if k = sanitized then currentCount + 1 else map k
  if currentCount = 0 then
    (updated, sanitized)
  else
    (updated, sanitized ++ "-" ++ toString (currentCount + 1))

/-- Sequential allocation over one shared occurrence map, as performed by
the per-input loop of `convertFiles` (`src/desktop/main.ts`). -/
def reserveNames : NameMap → List String → List String
  | _, [] => []
  | map, hint :: rest =>
    let r := reserveOutputName map hint
    r.2 :: reserveNames r.1 rest

/-! ## `src/config.ts`, `src/types.ts` and `src/utils/raster.ts` -/

/-- The closed `OutputFormat` union of `src/types.ts`. -/
inductive OutputFormat where
  | png
  | jpeg
  | webp
  | avif
  deriving Repr, DecidableEq

/-- String name of a format, as it appears in template literals. -/
def OutputFormat.name : OutputFormat → String
  | .png => "png"
  | .jpeg => "jpeg"
  | .webp => "webp"
  | .avif => "avif"

/-- The `SUPPORTED_FORMATS` constant of `src/config.ts`. -/
def SUPPORTED_FORMATS : List OutputFormat :=
  [.png, .jpeg, .webp, .avif]

/-- The `RasterConversionOptions` record of `src/utils/raster.ts`. -/
structure RasterConversionOptions where
  format : OutputFormat
  background : Option String := none

/-- What `convertPngBuffer` does with its input buffer: the `png` arm
returns it untouched, the other arms hand it to sharp with the listed
pipeline.  The buffer's bytes never influence control flow, so they are not
modelled. -/
inductive RasterAction where
  | passthrough
  | sharpFlattenJpeg (background : Option String)
  | sharpFlattenWebpLossless (background : Option String)
  deriving Repr, DecidableEq

/-- Embedding of `convertPngBuffer`'s control flow: the guarded
`backgroundColor` (truthy and not `"transparent"`), then the `switch` on
the format, whose `default` arm — reached by `avif` — throws. -/
def convertPngBuffer (options : RasterConversionOptions) :
    Except String RasterAction :=
  let backgroundColor : Option String :=
    match options.background with
    | some b => if b ≠ "" ∧ b ≠ "transparent" then some b else none
    | none => none
  match options.format with
  | .png => .ok .passthrough
  | .jpeg => .ok (.sharpFlattenJpeg backgroundColor)
  | .webp => .ok (.sharpFlattenWebpLossless backgroundColor)
  | .avif => .error ("Unsupported output format \"" ++ OutputFormat.name .avif ++ "\"")

/-! ## `src/cli.ts`: option merging and format defaulting -/

/-- The `RenderOptions` record of `src/types.ts`; every field is optional. -/
structure RenderOptions where
  width : Option ℚ := none
  height : Option ℚ := none
  scale : Option ℚ := none
  background : Option String := none
  format : Option OutputFormat := none
  time : Option ℚ := none
  extraCss : Option String := none
  baseUrl : Option String := none
  allowExternalStyles : Option Bool := none
  navigationTimeoutMs : Option ℚ := none
  deriving Repr, DecidableEq

/-- Embedding of `mergeRenderOptions(preset, overrides)`: start from a copy
of the preset and overwrite one field at a time, `format` when truthy
(defined), the rest when not `undefined`. -/
def mergeRenderOptions (preset overrides : RenderOptions) : RenderOptions :=
  let merged := preset
  let merged := if overrides.format.isSome then { merged with format := overrides.format } else merged
  let merged := if overrides.width.isSome then { merged with width := overrides.width } else merged
  let merged := if overrides.height.isSome then { merged with height := overrides.height } else merged
  let merged := if overrides.scale.isSome then { merged with scale := overrides.scale } else merged
  let merged := if overrides.background.isSome then { merged with background := overrides.background } else merged
  let merged := if overrides.extraCss.isSome then { merged with extraCss := overrides.extraCss } else merged
  let merged := if overrides.time.isSome then { merged with time := overrides.time } else merged
  let merged := if overrides.allowExternalStyles.isSome then { merged with allowExternalStyles := overrides.allowExternalStyles } else merged
  let merged := if overrides.baseUrl.isSome then { merged with baseUrl := overrides.baseUrl } else merged
  let merged := if overrides.navigationTimeoutMs.isSome then { merged with navigationTimeoutMs := overrides.navigationTimeoutMs } else merged
  merged

/-- The post-merge format default of `executeCli`:
`if (!renderOptions.format) renderOptions.format = presetOptions.format ?? 'png'`. -/
def resolvedRenderOptions (presetOptions overrides : RenderOptions) : RenderOptions :=
  let renderOptions := mergeRenderOptions presetOptions overrides
  if renderOptions.format.isSome then renderOptions
  else { renderOptions with format := some (presetOptions.format.getD .png) }

/-! ## `src/cli.ts`: the worker-pool scheduler

`executeCli` runs `Math.min(concurrency, jobs.length)` copies of `worker()`
over a shared cursor `nextIndex`, a shared `cancelled` flag set by the abort
handler, and shared `completed`/`failed` tallies, then awaits
`Promise.all(workers)` before producing the summary.

The model is a small-step transition relation.  JavaScript interleaves the
workers only at `await` points and each synchronous block runs atomically;
the model makes every labelled block its own atomic step and lets steps
interleave arbitrarily, which is a superset of the schedules the event loop
can produce, so safety properties proved over all runs of the model hold of
the source.  The synchronous loop head of `worker()` — the `cancelled`
check, the `nextIndex++` claim and the bounds test — is kept atomic exactly
as in the source, where no `await` separates those lines.  A job's outcome
is a function of its index (`jobFails`), covering any fixed behaviour of
the render/encode collaborators. -/

/-- Status of one `worker()` in the pool: back at the loop head, awaiting
`processJob` for a claimed job index, or returned. -/
inductive WorkerStatus where
  | idle
  | running (job : ℕ)
  | done
  deriving Repr, DecidableEq

/-- Shared scheduler state: the claim cursor `nextIndex`, the `cancelled`
flag, each worker's status, and the `completed`/`failed` tallies. -/
structure SchedulerState where
  nextIndex : ℕ
  cancelled : Bool
  workers : List WorkerStatus
  completed : ℕ
  failed : ℕ
  deriving Repr, DecidableEq

/-- One atomic step of the scheduler; `jobFails j` tells whether
`processJob` rejects on job `j`, `total` is `jobs.length`.

* `claimJob` / `claimExhausted` — the loop head with `cancelled` false:
  `const jobIndex = nextIndex++`, then either entering `processJob` or
  returning when the cursor has run past the job list;
* `observeCancel` — the loop head with `cancelled` true: return at once,
  without touching the cursor;
* `finishOk` / `finishFail` — the awaited `processJob` settles and the
  `try`/`catch` bumps the matching tally; the worker is back at the loop
  head;
* `requestCancel` — the abort handler fires (it is guarded by
  `if (!cancelled)`, so cancellation is settable only once). -/
inductive SchedStep (jobFails : ℕ → Bool) (total : ℕ) :
    SchedulerState → SchedulerState → Prop where
  | claimJob (nextIndex : ℕ) (w₁ w₂ : List WorkerStatus) (completed failed : ℕ)
      (hlt : nextIndex < total) :
      SchedStep jobFails total
        ⟨nextIndex, false, w₁ ++ .idle :: w₂, completed, failed⟩
        ⟨nextIndex + 1, false, w₁ ++ .running nextIndex :: w₂, completed, failed⟩
  | claimExhausted (nextIndex : ℕ) (w₁ w₂ : List WorkerStatus) (completed failed : ℕ)
      (hge : total ≤ nextIndex) :
      SchedStep jobFails total
        ⟨nextIndex, false, w₁ ++ .idle :: w₂, completed, failed⟩
        ⟨nextIndex + 1, false, w₁ ++ .done :: w₂, completed, failed⟩
  | observeCancel (nextIndex : ℕ) (w₁ w₂ : List WorkerStatus) (completed failed : ℕ) :
      SchedStep jobFails total
        ⟨nextIndex, true, w₁ ++ .idle :: w₂, completed, failed⟩
        ⟨nextIndex, true, w₁ ++ .done :: w₂, completed, failed⟩
  | finishOk (nextIndex : ℕ) (cancelled : Bool) (w₁ w₂ : List WorkerStatus)
      (completed failed job : ℕ) (hfail : jobFails job = false) :
      SchedStep jobFails total
        ⟨nextIndex, cancelled, w₁ ++ .running job :: w₂, completed, failed⟩
        ⟨nextIndex, cancelled, w₁ ++ .idle :: w₂, completed + 1, failed⟩
  | finishFail (nextIndex : ℕ) (cancelled : Bool) (w₁ w₂ : List WorkerStatus)
      (completed failed job : ℕ) (hfail : jobFails job = true) :
      SchedStep jobFails total
        ⟨nextIndex, cancelled, w₁ ++ .running job :: w₂, completed, failed⟩
        ⟨nextIndex, cancelled, w₁ ++ .idle :: w₂, completed, failed + 1⟩
  | requestCancel (nextIndex : ℕ) (workers : List WorkerStatus) (completed failed : ℕ) :
      SchedStep jobFails total
        ⟨nextIndex, false, workers, completed, failed⟩
        ⟨nextIndex, true, workers, completed, failed⟩

/-- The batch's starting state: cursor and tallies at zero, nothing
cancelled, `Math.min(concurrency, jobs.length)` idle workers. -/
def initState (concurrency total : ℕ) : SchedulerState :=
  ⟨0, false, List.replicate (min concurrency total) .idle, 0, 0⟩

/-- Runs of the scheduler: the reflexive–transitive closure of the step
relation. -/
def SchedReachable (jobFails : ℕ → Bool) (total : ℕ) :
    SchedulerState → SchedulerState → Prop :=
  Relation.ReflTransGen (SchedStep jobFails total)

/-- The job index a worker currently holds, if any. -/
def workerJob : WorkerStatus → Option ℕ
  | .running j => some j
  | _ => none

/-- The indices currently being processed by some worker. -/
def runningJobs (s : SchedulerState) : List ℕ :=
  s.workers.filterMap workerJob

/-- `Promise.all(workers)` has resolved: every worker has returned. -/
def allWorkersDone (s : SchedulerState) : Prop :=
  ∀ w ∈ s.workers, w = WorkerStatus.done

/-- The `completed + failed` count that the cancelled summary reports. -/
def processedCount (s : SchedulerState) : ℕ :=
  s.completed + s.failed

/-- The number of jobs ever claimed: cursor position capped by the job
count (`claimExhausted` moves the cursor without claiming a job). -/
def claimedCount (total : ℕ) (s : SchedulerState) : ℕ :=
  min s.nextIndex total

/-- The scheduler's inductive invariant.  `finished` is the set of settled
job indices: together with the currently running jobs it partitions the
claimed prefix `range (min nextIndex total)` (the multiset equation forces
both distinctness of running jobs and disjointness from `finished`); the
tallies count the settled successes and failures; and while `cancelled` is
unset, a returned worker witnesses an exhausted cursor. -/
def SchedInv (jobFails : ℕ → Bool) (total : ℕ) (s : SchedulerState) : Prop :=
  ∃ finished : Finset ℕ,
    finished.val + (runningJobs s : Multiset ℕ) =
        (Finset.range (claimedCount total s)).val ∧
    s.completed = (finished.filter fun j => jobFails j = false).card ∧
    s.failed = (finished.filter fun j => jobFails j = true).card ∧
    (s.cancelled = false → WorkerStatus.done ∈ s.workers → total ≤ s.nextIndex)

/-! ## Helper lemmas on the string scanners -/

theorem dropWhile_eq_self_of_all_neg {p : Char → Bool} {l : List Char}
    (h : ∀ c ∈ l, p c = false) : l.dropWhile p = l := by
  cases l with
  | nil => rfl
  | cons c rest =>
    rw [List.dropWhile_cons_of_neg]
    simp [h c (List.mem_cons_self c rest)]

theorem jsTrimList_eq_self {l : List Char}
    (h : ∀ c ∈ l, isJsWhitespace c = false) : jsTrimList l = l := by
  unfold jsTrimList
  rw [dropWhile_eq_self_of_all_neg h]
  rw [dropWhile_eq_self_of_all_neg (fun c hc => h c (List.mem_reverse.mp hc))]
  exact List.reverse_reverse l

theorem takeWhile_append_of_all {p : Char → Bool} {l₁ l₂ : List Char}
    (h : ∀ c ∈ l₁, p c = true) :
    (l₁ ++ l₂).takeWhile p = l₁ ++ l₂.takeWhile p := by
  induction l₁ with
  | nil => rfl
  | cons c rest ih =>
    rw [List.cons_append, List.takeWhile_cons_of_pos (h c (List.mem_cons_self c rest))]
    rw [ih (fun x hx => h x (List.mem_cons_of_mem c hx))]
    rfl

theorem dropWhile_append_of_all {p : Char → Bool} {l₁ l₂ : List Char}
    (h : ∀ c ∈ l₁, p c = true) :
    (l₁ ++ l₂).dropWhile p = l₂.dropWhile p := by
  induction l₁ with
  | nil => rfl
  | cons c rest ih =>
    rw [List.cons_append, List.dropWhile_cons_of_pos (h c (List.mem_cons_self c rest))]
    exact ih (fun x hx => h x (List.mem_cons_of_mem c hx))

/-- Every character of a string accepted by the unsigned numeric group is a
digit or a decimal point. -/
theorem parseUnsignedNumber_char_class {body : List Char} {q : ℚ}
    (h : parseUnsignedNumber body = some q) :
    ∀ c ∈ body, c.isDigit = true ∨ c = '.' := by
  intro c hc
  rw [← List.takeWhile_append_dropWhile Char.isDigit body] at hc
  rcases List.mem_append.mp hc with h1 | h2
  · exact Or.inl (List.mem_takeWhile_imp h1)
  · unfold parseUnsignedNumber at h
    split at h
    next hnil =>
      rw [hnil] at h2
      cases h2
    next rest2 heq =>
      rw [heq] at h2
      rcases List.mem_cons.mp h2 with hcd | hcr
      · exact Or.inr hcd
      · split at h
        next hcond =>
          have h3 := ((Bool.and_eq_true _ _).mp hcond).1
          rw [List.isEmpty_iff] at h3
          rw [← List.takeWhile_append_dropWhile Char.isDigit rest2, h3, List.append_nil] at hcr
          exact Or.inl (List.mem_takeWhile_imp hcr)
        next => cases h
    next => cases h

/-- Every character of a string accepted by the numeric capture group is a
digit, a minus sign or a decimal point; in particular it is neither a unit
character nor whitespace. -/
theorem parseLengthNumber_char_class {l : List Char} {q : ℚ}
    (h : parseLengthNumber l = some q) :
    ∀ c ∈ l, c.isDigit = true ∨ c = '-' ∨ c = '.' := by
  unfold parseLengthNumber at h
  split at h
  next rest =>
    intro c hc
    rcases List.mem_cons.mp hc with hceq | hcrest
    · exact Or.inr (Or.inl hceq)
    · obtain ⟨q0, hq0, _⟩ := Option.map_eq_some'.mp h
      rcases parseUnsignedNumber_char_class hq0 c hcrest with h' | h'
      · exact Or.inl h'
      · exact Or.inr (Or.inr h')
  next =>
    intro c hc
    rcases parseUnsignedNumber_char_class h c hc with h' | h'
    · exact Or.inl h'
    · exact Or.inr (Or.inr h')

/-! ## Evaluation lemmas for the concrete inputs the claims use -/

set_option maxRecDepth 8000

theorem parse_attrs_height200 :
    parseSvgAttributes "<svg height=\"200\"></svg>" = some [("height", "200")] := by
  simp [parseSvgAttributes, findSvgTag, matchSvgTagHere, parseAttrList, matchAttrValue,
    dropWhileLe, isWordChar, isAttrKeyChar, isJsWhitespace, isBareValueChar, jsToLower]

theorem parse_attrs_width200_viewBox :
    parseSvgAttributes "<svg width=\"200\" viewBox=\"0 0 100 50\"></svg>" =
      some [("width", "200"), ("viewbox", "0 0 100 50")] := by
  simp [parseSvgAttributes, findSvgTag, matchSvgTagHere, parseAttrList, matchAttrValue,
    dropWhileLe, isWordChar, isAttrKeyChar, isJsWhitespace, isBareValueChar, jsToLower]

theorem parse_attrs_bare :
    parseSvgAttributes "<svg></svg>" = some [] := by
  simp [parseSvgAttributes, findSvgTag, matchSvgTagHere, parseAttrList, matchAttrValue,
    dropWhileLe, isWordChar, isAttrKeyChar, isJsWhitespace, isBareValueChar, jsToLower]

theorem convertLengthToPx_lit_200 :
    convertLengthToPx (some "200") = some (.finite 200) := by
  simp [convertLengthToPx, jsTrimList, isJsWhitespace, isUnitChar, parseLengthNumber,
    parseUnsignedNumber, digitsVal, jsToLower, UNIT_TO_PX, UnitLookup.toNumber, jsMul]

theorem parse_attrs_width10ctor :
    parseSvgAttributes "<svg width=\"10constructor\"></svg>" =
      some [("width", "10constructor")] := by
  simp [parseSvgAttributes, findSvgTag, matchSvgTagHere, parseAttrList, matchAttrValue,
    dropWhileLe, isWordChar, isAttrKeyChar, isJsWhitespace, isBareValueChar, jsToLower]

theorem parse_attrs_viewBox_infinity :
    parseSvgAttributes "<svg viewBox=\"0 0 Infinity 50\"></svg>" =
      some [("viewbox", "0 0 Infinity 50")] := by
  simp [parseSvgAttributes, findSvgTag, matchSvgTagHere, parseAttrList, matchAttrValue,
    dropWhileLe, isWordChar, isAttrKeyChar, isJsWhitespace, isBareValueChar, jsToLower]

theorem convertLengthToPx_lit_10ctor :
    convertLengthToPx (some "10constructor") = some .nan := by
  simp [convertLengthToPx, jsTrimList, isJsWhitespace, isUnitChar, parseLengthNumber,
    parseUnsignedNumber, digitsVal, jsToLower, UNIT_TO_PX, UnitLookup.toNumber, jsMul]

theorem parseViewBox_lit_100_50 :
    parseViewBox (some "0 0 100 50") =
      some ⟨.finite 0, .finite 0, .finite 100, .finite 50⟩ := by
  simp [parseViewBox, jsTrimList, isJsWhitespace, splitDelim, splitDelimAux,
    isViewBoxDelim, jsNumber, digitsVal, JsNumber.isNaN]

theorem parseViewBox_lit_infinity :
    parseViewBox (some "0 0 Infinity 50") =
      some ⟨.finite 0, .finite 0, .posInf, .finite 50⟩ := by
  simp [parseViewBox, jsTrimList, isJsWhitespace, splitDelim, splitDelimAux,
    isViewBoxDelim, jsNumber, digitsVal, JsNumber.isNaN]

/-! ## Claim C1 — `convertPngBuffer` and the `avif` format -/

/-- C1: the claim says `convertPngBuffer` encodes every format of
`SUPPORTED_FORMATS` — in particular `avif` — without reaching its
unsupported-format error branch.  The code disagrees: `avif` is in
`SUPPORTED_FORMATS` (so it passes `BrowserRenderer.render`'s guard), but
`convertPngBuffer`'s `switch` has no `avif` arm and its `default` arm
throws `Unsupported output format "avif"`.  The repository's own raster
test converts to AVIF and its README advertises `.avif` output, so this is
recorded as a bug in `src/utils/raster.ts`; this theorem evaluates the
embedded function at the failing input. -/
theorem convertPngBuffer_avif_hits_error_branch :
    SUPPORTED_FORMATS.contains OutputFormat.avif = true ∧
    convertPngBuffer ⟨.avif, none⟩ = .error "Unsupported output format \"avif\"" :=
  ⟨rfl, rfl⟩

/-! ## Claim C2 — uniqueness of allocated output stems -/

/-- C2: the claim says `reserveOutputName` over one shared occurrence map
yields pairwise-distinct stems for every hint sequence, including hints that
already end in a `-n` suffix, e.g. `[icon, icon-2, icon]`.  The code
disagrees on exactly that input: the third hint collides with the second's
verbatim stem, because the occurrence counter of `icon` produces `icon-2`
while the literal hint `icon-2` kept its stem unmodified.  The function's
own unit test is titled "reserves unique output names", and the spec lists
outputPath uniqueness as a batch invariant, so the intent is uniqueness and
this is recorded as a bug; this theorem evaluates the embedded allocator at
the failing input. -/
theorem reserveNames_hint_collision :
    reserveNames NameMap.empty ["icon", "icon-2", "icon"] = ["icon", "icon-2", "icon-2"] ∧
    ¬ (["icon", "icon-2", "icon-2"] : List String).Nodup := by
  constructor
  · decide
  · decide

/-! ## Claim C3 — dimension fallback for one-sided markup -/

/-- C3 counterexample: the claim says a height-only root (no width, no
viewBox, no overrides) resolves the missing width to the fixed fallback 512.
On `<svg height="200"></svg>` the code instead mirrors the known side:
`width ?? height ?? DEFAULT_VIEWPORT_SIZE` resolves width to 200, not
512. -/
theorem deriveDimensions_height_only_not_512 :
    deriveDimensions "<svg height=\"200\"></svg>" ⟨none, none⟩ =
      some ⟨.finite 200, .finite 200, none⟩ ∧
    JsNumber.finite 200 ≠ JsNumber.finite 512 := by
  refine ⟨?_, by decide⟩
  unfold deriveDimensions
  rw [parse_attrs_height200]
  simp only [getAttr, String.reduceEq, reduceIte]
  rw [convertLengthToPx_lit_200]
  simp only [show convertLengthToPx none = none from rfl,
    show parseViewBox none = none from rfl]
  simp [truthyJs, truthyNum, Option.or, jsMax1, jsRound, DEFAULT_VIEWPORT_SIZE]
  norm_num [Int.floor_eq_iff]

/-- C3 (amended): for markup whose root carries only a height attribute (no
width, no viewBox) and no explicit overrides, `deriveDimensions` resolves
the unknown width by mirroring the resolved height (`width ?? height`), so
both sides equal the rounded, clamped height value; the fixed fallback
`DEFAULT_VIEWPORT_SIZE = 512` applies only when both sides are unknown.
The precedence is explicit override > attribute length > ratio-completion >
raw viewBox size > the other resolved side > fixed fallback. -/
theorem deriveDimensions_height_only_mirrors (svg : String)
    (attrs : List (String × String)) (hstr : String) (q : JsNumber)
    (hparse : parseSvgAttributes svg = some attrs)
    (hw : getAttr attrs "width" = none)
    (hvb : getAttr attrs "viewbox" = none)
    (hh : getAttr attrs "height" = some hstr)
    (hq : convertLengthToPx (some hstr) = some q) :
    deriveDimensions svg ⟨none, none⟩ =
      some ⟨jsMax1 (jsRound q), jsMax1 (jsRound q), none⟩ := by
  unfold deriveDimensions
  rw [hparse]
  simp only [hw, hvb, hh]
  rw [hq]
  simp only [show convertLengthToPx none = none from rfl,
    show parseViewBox none = none from rfl]
  simp [truthyJs, Option.or]

/-- C3 amended-claim witness at `<svg height="200"></svg>`. -/
theorem deriveDimensions_height_only_mirrors_witness :
    deriveDimensions "<svg height=\"200\"></svg>" ⟨none, none⟩ =
      some ⟨.finite 200, .finite 200, none⟩ := by
  have h := deriveDimensions_height_only_mirrors "<svg height=\"200\"></svg>"
    [("height", "200")] "200" (.finite 200) parse_attrs_height200 rfl rfl rfl
    convertLengthToPx_lit_200
  rw [h]
  norm_num [jsMax1, jsRound, Int.floor_eq_iff]

/-! ## Claim C7 — ratio-completion from the viewBox -/

/-- C7: for markup whose root has `width=200`, `viewBox="0 0 100 50"` and no
height attribute, with no explicit overrides, `deriveDimensions` returns
exactly width 200 and height 100: the missing height is the known width
divided by the viewBox aspect ratio (ratio-completion). -/
theorem deriveDimensions_ratio_completion (svg : String)
    (attrs : List (String × String))
    (hparse : parseSvgAttributes svg = some attrs)
    (hw : getAttr attrs "width" = some "200")
    (hvb : getAttr attrs "viewbox" = some "0 0 100 50")
    (hh : getAttr attrs "height" = none) :
    deriveDimensions svg ⟨none, none⟩ =
      some ⟨.finite 200, .finite 100, some ⟨.finite 0, .finite 0, .finite 100, .finite 50⟩⟩ := by
  unfold deriveDimensions
  rw [hparse]
  simp only [hw, hvb, hh]
  rw [convertLengthToPx_lit_200, parseViewBox_lit_100_50]
  simp only [show convertLengthToPx none = none from rfl]
  simp [truthyJs, truthyNum, Option.or, jsDiv]
  norm_num [jsMax1, jsRound, Int.floor_eq_iff]

/-- C7 witness at `<svg width="200" viewBox="0 0 100 50"></svg>`. -/
theorem deriveDimensions_ratio_completion_witness :
    deriveDimensions "<svg width=\"200\" viewBox=\"0 0 100 50\"></svg>" ⟨none, none⟩ =
      some ⟨.finite 200, .finite 100, some ⟨.finite 0, .finite 0, .finite 100, .finite 50⟩⟩ :=
  deriveDimensions_ratio_completion _ _ parse_attrs_width200_viewBox rfl rfl rfl

/-! ## Claim C8 — the resolver's output and the positive-integer pair -/

/-- C8 counterexample: the claim says every resolved side is an integer at
least 1, for every markup and overrides.  The program disagrees:
`width="10constructor"` makes `convertLengthToPx` return `NaN` (the
`UNIT_TO_PX` prototype-chain lookup hits `Object.prototype.constructor`,
skipping the `?? px` default), and `NaN` propagates through `??`,
`Math.round` and `Math.max` to both output sides; markup with
`viewBox="0 0 Infinity 50"` passes the `isNaN` filter and resolves width to
`+∞`.  Neither output is a finite integer. -/
theorem deriveDimensions_nan_and_infinity :
    deriveDimensions "<svg width=\"10constructor\"></svg>" ⟨none, none⟩ =
      some ⟨.nan, .nan, none⟩ ∧
    deriveDimensions "<svg viewBox=\"0 0 Infinity 50\"></svg>" ⟨none, none⟩ =
      some ⟨.posInf, .finite 50, some ⟨.finite 0, .finite 0, .posInf, .finite 50⟩⟩ ∧
    ¬ isPositiveIntSide .nan ∧ ¬ isPositiveIntSide .posInf := by
  refine ⟨?_, ?_, ?_, ?_⟩
  · unfold deriveDimensions
    rw [parse_attrs_width10ctor]
    simp only [getAttr, String.reduceEq, reduceIte]
    rw [convertLengthToPx_lit_10ctor]
    simp only [show convertLengthToPx none = none from rfl,
      show parseViewBox none = none from rfl]
    simp [truthyJs, truthyNum, Option.or, jsMax1, jsRound]
  · unfold deriveDimensions
    rw [parse_attrs_viewBox_infinity]
    simp only [getAttr, String.reduceEq, reduceIte]
    rw [parseViewBox_lit_infinity]
    simp only [show convertLengthToPx none = none from rfl]
    simp [truthyJs, truthyNum, Option.or, jsDiv, jsMax1, jsRound]
    norm_num [Int.floor_eq_iff]
  · rintro ⟨k, _, hk⟩
    cases hk
  · rintro ⟨k, _, hk⟩
    cases hk

/-- Clamping classifies every resolved value: `Math.max(1, Math.round(x))`
is a finite integer at least 1, `NaN`, or `+∞` (never `-∞`: `Math.max`
lifts it to 1). -/
theorem jsMax1_round_classification (x : JsNumber) :
    isPositiveIntSide (jsMax1 (jsRound x)) ∨
    jsMax1 (jsRound x) = .nan ∨ jsMax1 (jsRound x) = .posInf := by
  cases x with
  | finite q =>
    left
    refine ⟨max 1 ⌊q + 1 / 2⌋, le_max_left 1 _, ?_⟩
    simp only [jsRound, jsMax1, JsNumber.finite.injEq]
    push_cast
    rfl
  | nan => right; left; rfl
  | posInf => right; right; rfl
  | negInf =>
    left
    exact ⟨1, le_refl 1, by simp [jsRound, jsMax1]⟩

/-- C8 (amended): whenever `deriveDimensions` succeeds, each returned side
is a finite integer at least 1, `NaN`, or `+∞` — so every finite side is a
positive integer, but a side need not be finite: `NaN` (e.g. via the
`constructor` unit) and `+∞` (e.g. via an `Infinity` viewBox token) escape
the clamp, as the counterexample shows.  For markup whose root carries no
width, height or viewBox attribute and no overrides, both sides equal the
fixed fallback `DEFAULT_VIEWPORT_SIZE = 512`. -/
theorem deriveDimensions_positive_when_finite :
    (∀ (svg : String) (o : SvgDimensionOverrides) (d : DerivedDimensions),
      deriveDimensions svg o = some d →
      (isPositiveIntSide d.width ∨ d.width = .nan ∨ d.width = .posInf) ∧
      (isPositiveIntSide d.height ∨ d.height = .nan ∨ d.height = .posInf)) ∧
    (∀ (svg : String) (attrs : List (String × String)),
      parseSvgAttributes svg = some attrs →
      getAttr attrs "width" = none →
      getAttr attrs "height" = none →
      getAttr attrs "viewbox" = none →
      deriveDimensions svg ⟨none, none⟩ = some ⟨.finite 512, .finite 512, none⟩) := by
  constructor
  · intro svg o d h
    unfold deriveDimensions at h
    cases hp : parseSvgAttributes svg with
    | none => rw [hp] at h; cases h
    | some attrs =>
      rw [hp] at h
      simp only [Option.some.injEq] at h
      subst h
      exact ⟨jsMax1_round_classification _, jsMax1_round_classification _⟩
  · intro svg attrs hparse hw hh hvb
    unfold deriveDimensions
    rw [hparse]
    simp only [hw, hh, hvb]
    simp only [show convertLengthToPx none = none from rfl,
      show parseViewBox none = none from rfl]
    simp [truthyJs, Option.or, DEFAULT_VIEWPORT_SIZE]
    norm_num [jsMax1, jsRound, Int.floor_eq_iff]

/-- C8 amended-claim witness: the attribute-less markup `<svg></svg>`
resolves to the finite pair (512, 512), which is a positive-integer
side. -/
theorem deriveDimensions_positive_when_finite_witness :
    deriveDimensions "<svg></svg>" ⟨none, none⟩ =
      some ⟨.finite 512, .finite 512, none⟩ ∧
    isPositiveIntSide (.finite 512) := by
  have h := deriveDimensions_positive_when_finite.2 "<svg></svg>" [] parse_attrs_bare
    rfl rfl rfl
  exact ⟨h, ⟨512, by norm_num, by norm_num⟩⟩

/-! ## Claim C9 — suffix numbering of repeated hints -/

/-- Running the allocator over `n` copies of an already-sanitized hint,
starting from an arbitrary occurrence map: the `i`-th copy observes count
`m h + i` and is numbered accordingly. -/
theorem reserveNames_replicate_general (h : String)
    (hsan : sanitizeNameHint (some h) "output" = h) :
    ∀ (n : ℕ) (m : NameMap),
      reserveNames m (List.replicate n h) =
        (List.range n).map (fun i =>
          if m h + i = 0 then h else h ++ "-" ++ toString (m h + i + 1)) := by
  intro n
  induction n with
  | zero => intro m; rfl
  | succ n ih =>
    intro m
    rw [List.replicate_succ]
    show (reserveOutputName m h).2 ::
        reserveNames (reserveOutputName m h).1 (List.replicate n h) = _
    have hupd : (reserveOutputName m h).1 h = m h + 1 := by
      unfold reserveOutputName
      rw [hsan]
      by_cases h0 : m h = 0 <;> simp [h0]
    have hstem : (reserveOutputName m h).2 =
        if m h + 0 = 0 then h else h ++ "-" ++ toString (m h + 0 + 1) := by
      unfold reserveOutputName
      rw [hsan]
      by_cases h0 : m h = 0 <;> simp [h0]
    rw [ih ((reserveOutputName m h).1), hstem, hupd]
    rw [List.range_succ_eq_map, List.map_cons, List.map_map]
    congr 1
    apply List.map_congr_left
    intro i _
    simp only [Function.comp_apply, Nat.succ_eq_add_one]
    have h1 : ¬ (m h + 1 + i = 0) := by omega
    have h2 : ¬ (m h + (i + 1) = 0) := by omega
    rw [if_neg h1, if_neg h2]
    have h3 : m h + 1 + i + 1 = m h + (i + 1) + 1 := by omega
    rw [h3]

/-- C9: allocating `n` inputs that all carry the same sanitized hint `h`
yields the stems `h, h-2, h-3, …, h-n` in input order — the first
occurrence keeps the stem unmodified, the `k`-th (`k ≥ 2`) gets suffix
`-k`. -/
theorem reserveNames_same_hint_stems (h : String) (n : ℕ)
    (hsan : sanitizeNameHint (some h) "output" = h) :
    reserveNames NameMap.empty (List.replicate n h) =
      (List.range n).map (fun i =>
        if i = 0 then h else h ++ "-" ++ toString (i + 1)) := by
  rw [reserveNames_replicate_general h hsan n NameMap.empty]
  apply List.map_congr_left
  intro i _
  show (if 0 + i = 0 then h else h ++ "-" ++ toString (0 + i + 1)) = _
  rw [Nat.zero_add]

/-- C9 witness: hint `icon` three times, giving `icon, icon-2, icon-3`. -/
theorem reserveNames_same_hint_stems_witness :
    sanitizeNameHint (some "icon") "output" = "icon" ∧
    reserveNames NameMap.empty (List.replicate 3 "icon") =
      ["icon", "icon-2", "icon-3"] :=
  ⟨by decide, (reserveNames_same_hint_stems "icon" 3 (by decide)).trans (by decide)⟩

/-! ## Claim C10 — unrecognized length units default to pixels -/

/-- A digit is neither a unit character nor whitespace. -/
theorem isDigit_no_unit_no_ws (c : Char) (hd : c.isDigit = true) :
    isUnitChar c = false ∧ isJsWhitespace c = false := by
  simp only [Char.isDigit, Bool.and_eq_true, decide_eq_true_eq] at hd
  have h1 : (48 : UInt32).toNat ≤ c.val.toNat := hd.1
  have h2 : c.val.toNat ≤ (57 : UInt32).toNat := hd.2
  constructor
  · simp only [isUnitChar, Bool.or_eq_false_iff, Char.isAlpha, Char.isUpper, Char.isLower,
      Bool.and_eq_false_iff, decide_eq_false_iff_not]
    refine ⟨⟨Or.inl fun hle => ?_, Or.inl fun hle => ?_⟩, fun heq => ?_⟩
    · have : (65 : UInt32).toNat ≤ c.val.toNat := hle
      exact absurd (le_trans this h2) (by decide)
    · have : (97 : UInt32).toNat ≤ c.val.toNat := hle
      exact absurd (le_trans this h2) (by decide)
    · subst heq
      exact absurd h1 (by decide)
  · simp only [isJsWhitespace, Bool.or_eq_false_iff, decide_eq_false_iff_not]
    refine ⟨⟨⟨⟨⟨fun heq => ?_, fun heq => ?_⟩, fun heq => ?_⟩, fun heq => ?_⟩,
      fun heq => ?_⟩, fun heq => ?_⟩ <;>
      (subst heq; exact absurd h1 (by decide))

/-- Character facts about the ASCII alphabet, decided letter by letter. -/
theorem asciiLetter_facts :
    ∀ c ∈ asciiLetterChars,
      isUnitChar c = true ∧ isJsWhitespace c = false ∧ Char.toLower c ≠ '%' := by
  decide

/-- C10 counterexample: the unit `constructor` lies outside the
`UNIT_TO_PX` table, yet `convertLengthToPx "10constructor"` does not return
the bare value 10: the property lookup resolves the prototype chain and
finds `Object.prototype.constructor`, which is not nullish, so the
`?? UNIT_TO_PX.px` fallback never applies and multiplying by the inherited
constructor function yields `NaN`. -/
theorem convertLengthToPx_constructor_not_bare :
    convertLengthToPx (some "10constructor") = some JsNumber.nan ∧
    JsNumber.nan ≠ JsNumber.finite 10 :=
  ⟨convertLengthToPx_lit_10ctor, by decide⟩

/-- C10 (amended): `convertLengthToPx` treats an alphabetic unit suffix as
pixels exactly when the lowercased unit is absent from `UNIT_TO_PX` *and*
from the object's prototype chain: for every input `<number><unit>` whose
numeric part matches the capture group with value `q` and whose nonempty
letter unit looks up as `undefined`, the result is the bare value `q`
(factor 1); with the unit `constructor` — outside the table but present on
`Object.prototype` — the result is `NaN` instead; and with the `%` unit the
result is `none` (unresolved). -/
theorem convertLengthToPx_unknown_unit (numChars unitChars : List Char) (q : ℚ)
    (hnum : parseLengthNumber numChars = some q)
    (hne : unitChars ≠ [])
    (hletters : ∀ c ∈ unitChars, c ∈ asciiLetterChars)
    (hnotin : UNIT_TO_PX (jsToLower (String.mk unitChars)) = .absent) :
    convertLengthToPx (some (String.mk (numChars ++ unitChars))) = some (.finite q) ∧
    convertLengthToPx (some (String.mk (numChars ++ "constructor".toList))) = some .nan ∧
    convertLengthToPx (some (String.mk (numChars ++ ['%']))) = none := by
  have hnumc : ∀ c ∈ numChars, isUnitChar c = false ∧ isJsWhitespace c = false := by
    intro c hc
    rcases parseLengthNumber_char_class hnum c hc with h | h | h
    · exact isDigit_no_unit_no_ws c h
    · subst h; exact ⟨by decide, by decide⟩
    · subst h; exact ⟨by decide, by decide⟩
  have hmain : ∀ unitChars' : List Char, unitChars' ≠ [] →
      (∀ c ∈ unitChars', isUnitChar c = true ∧ isJsWhitespace c = false) →
      convertLengthToPx (some (String.mk (numChars ++ unitChars'))) =
        (let unit := jsToLower (String.mk unitChars')
         if unit = "%" then none
         else
           let factor :=
             match UNIT_TO_PX unit with
             | .absent => UnitLookup.num 1
             | v => v
           some (jsMul (.finite q) factor.toNumber)) := by
    intro u hune huc
    have hsne : ¬ (String.mk (numChars ++ u) = "") := by
      intro hs
      have : numChars ++ u = [] := congrArg String.toList hs
      exact hune (List.append_eq_nil.mp this).2
    have htrim : jsTrimList (numChars ++ u) = numChars ++ u := by
      apply jsTrimList_eq_self
      intro c hc
      rcases List.mem_append.mp hc with h | h
      · exact (hnumc c h).2
      · exact (huc c h).2
    obtain ⟨u0, urest, rfl⟩ : ∃ u0 urest, u = u0 :: urest := by
      cases u with
      | nil => exact absurd rfl hune
      | cons a b => exact ⟨a, b, rfl⟩
    have htake : (numChars ++ u0 :: urest).takeWhile (fun c => !isUnitChar c) = numChars := by
      rw [takeWhile_append_of_all (fun c hc => by simp [(hnumc c hc).1])]
      rw [List.takeWhile_cons_of_neg (by simp [(huc u0 (List.mem_cons_self u0 urest)).1])]
      simp
    have hdrop : (numChars ++ u0 :: urest).dropWhile (fun c => !isUnitChar c) = u0 :: urest := by
      rw [dropWhile_append_of_all (fun c hc => by simp [(hnumc c hc).1])]
      rw [List.dropWhile_cons_of_neg (by simp [(huc u0 (List.mem_cons_self u0 urest)).1])]
    have hall : (u0 :: urest).all isUnitChar = true := by
      rw [List.all_eq_true]
      intro c hc
      exact (huc c hc).1
    have hlist_ne : ((numChars ++ u0 :: urest).isEmpty) = false := by
      simp
    have hcne : (u0 :: urest : List Char).isEmpty = false := by simp
    simp only [convertLengthToPx]
    rw [if_neg hsne]
    simp only [String.toList, htrim, htake, hdrop, hall, hnum, hlist_ne, hcne,
      Bool.not_true, Bool.false_eq_true, if_false]
  refine ⟨?_, ?_, ?_⟩
  · have huc : ∀ c ∈ unitChars, isUnitChar c = true ∧ isJsWhitespace c = false := by
      intro c hc
      exact ⟨(asciiLetter_facts c (hletters c hc)).1, (asciiLetter_facts c (hletters c hc)).2.1⟩
    rw [hmain unitChars hne huc]
    have hpc : ¬ (jsToLower (String.mk unitChars) = "%") := by
      intro hp
      have hmap : unitChars.map Char.toLower = ['%'] := congrArg String.toList hp
      cases unitChars with
      | nil => exact hne rfl
      | cons c0 crest =>
        rw [List.map_cons, List.cons.injEq] at hmap
        exact (asciiLetter_facts c0 (hletters c0 (List.mem_cons_self c0 crest))).2.2 hmap.1
    simp only [if_neg hpc]
    rw [hnotin]
    simp [UnitLookup.toNumber, jsMul]
  · rw [hmain "constructor".toList (by decide) (by decide)]
    have hlc : jsToLower (String.mk "constructor".toList) = "constructor" := by decide
    rw [hlc]
    simp [UNIT_TO_PX, UnitLookup.toNumber, jsMul]
  · rw [hmain ['%'] (by simp) (by decide)]
    have : jsToLower (String.mk ['%']) = "%" := by decide
    rw [this]
    simp

/-- C10 witness: `10em` (em is outside the table and not an inherited
property) resolves to the bare value 10, `10constructor` resolves to `NaN`,
and `10%` is unresolved. -/
theorem convertLengthToPx_unknown_unit_witness :
    convertLengthToPx (some "10em") = some (.finite 10) ∧
    convertLengthToPx (some "10constructor") = some .nan ∧
    convertLengthToPx (some "10%") = none := by
  have hnum : parseLengthNumber ['1', '0'] = some 10 := by
    simp [parseLengthNumber, parseUnsignedNumber, digitsVal]
  have h := convertLengthToPx_unknown_unit ['1', '0'] ['e', 'm'] 10 hnum
    (by simp) (by decide) (by decide)
  exact h

/-! ## Claim C6 — layered option merging and the late format default -/

/-- C6: `mergeRenderOptions` merges field by field — each field of the
result is the override's value when the override defines it and the
preset's value otherwise, so an undefined override never erases a preset
value — and `format` is defaulted only after the merge, so the resolved
format is the override's, else the preset's, else `png`.  In particular,
preset `{format: webp, width: 1024}` with override `{width: 256}` resolves
to `{format: webp, width: 256}`. -/
theorem mergeRenderOptions_layering :
    (∀ p o : RenderOptions,
      (mergeRenderOptions p o).width = o.width.or p.width ∧
      (mergeRenderOptions p o).height = o.height.or p.height ∧
      (mergeRenderOptions p o).scale = o.scale.or p.scale ∧
      (mergeRenderOptions p o).background = o.background.or p.background ∧
      (mergeRenderOptions p o).format = o.format.or p.format ∧
      (mergeRenderOptions p o).time = o.time.or p.time ∧
      (mergeRenderOptions p o).extraCss = o.extraCss.or p.extraCss ∧
      (mergeRenderOptions p o).baseUrl = o.baseUrl.or p.baseUrl ∧
      (mergeRenderOptions p o).allowExternalStyles =
        o.allowExternalStyles.or p.allowExternalStyles ∧
      (mergeRenderOptions p o).navigationTimeoutMs =
        o.navigationTimeoutMs.or p.navigationTimeoutMs) ∧
    (∀ p o : RenderOptions,
      (resolvedRenderOptions p o).format =
        some ((o.format.or p.format).getD .png)) ∧
    resolvedRenderOptions { format := some .webp, width := some 1024 }
        { width := some 256 } =
      { format := some .webp, width := some 256 } := by
  have hfmt : ∀ p o : RenderOptions,
      (mergeRenderOptions p o).format = o.format.or p.format := by
    intro p o
    simp only [mergeRenderOptions, apply_ite RenderOptions.format, ite_self]
    cases o.format <;> simp [Option.or]
  refine ⟨fun p o => ?_, fun p o => ?_, rfl⟩
  · refine ⟨?_, ?_, ?_, ?_, hfmt p o, ?_, ?_, ?_, ?_, ?_⟩
    · simp only [mergeRenderOptions, apply_ite RenderOptions.width, ite_self]
      cases o.width <;> simp [Option.or]
    · simp only [mergeRenderOptions, apply_ite RenderOptions.height, ite_self]
      cases o.height <;> simp [Option.or]
    · simp only [mergeRenderOptions, apply_ite RenderOptions.scale, ite_self]
      cases o.scale <;> simp [Option.or]
    · simp only [mergeRenderOptions, apply_ite RenderOptions.background, ite_self]
      cases o.background <;> simp [Option.or]
    · simp only [mergeRenderOptions, apply_ite RenderOptions.time, ite_self]
      cases o.time <;> simp [Option.or]
    · simp only [mergeRenderOptions, apply_ite RenderOptions.extraCss, ite_self]
      cases o.extraCss <;> simp [Option.or]
    · simp only [mergeRenderOptions, apply_ite RenderOptions.baseUrl, ite_self]
      cases o.baseUrl <;> simp [Option.or]
    · simp only [mergeRenderOptions, apply_ite RenderOptions.allowExternalStyles, ite_self]
      cases o.allowExternalStyles <;> simp [Option.or]
    · simp only [mergeRenderOptions, apply_ite RenderOptions.navigationTimeoutMs, ite_self]
      cases o.navigationTimeoutMs <;> simp [Option.or]
  · unfold resolvedRenderOptions
    have hf := hfmt p o
    cases ho : o.format with
    | some f => simp [hf, ho, Option.or]
    | none =>
      cases hp : p.format with
      | some g => simp [hf, ho, hp, Option.or]
      | none => simp [hf, ho, hp, Option.or]

/-! ## Scheduler lemmas -/

theorem workerJob_idle : workerJob .idle = none := rfl

theorem workerJob_done : workerJob .done = none := rfl

theorem workerJob_running (j : ℕ) : workerJob (.running j) = some j := rfl

theorem filterMap_workerJob_mid_none (w₁ w₂ : List WorkerStatus)
    (x : WorkerStatus) (hx : workerJob x = none) :
    (w₁ ++ x :: w₂).filterMap workerJob =
      w₁.filterMap workerJob ++ w₂.filterMap workerJob := by
  rw [List.filterMap_append, List.filterMap_cons, hx]

theorem filterMap_workerJob_mid_some (w₁ w₂ : List WorkerStatus) (j : ℕ) :
    (w₁ ++ .running j :: w₂).filterMap workerJob =
      w₁.filterMap workerJob ++ j :: w₂.filterMap workerJob := by
  rw [List.filterMap_append, List.filterMap_cons, workerJob_running]

theorem multiset_cons_middle (m : Multiset ℕ) (A B : List ℕ) (j : ℕ) :
    j ::ₘ (m + ↑(A ++ B)) = m + ↑(A ++ j :: B) := by
  have h1 : (↑(A ++ j :: B) : Multiset ℕ) = ↑A + (j ::ₘ ↑B) := by simp
  have h2 : (↑(A ++ B) : Multiset ℕ) = ↑A + ↑B := by simp
  rw [h1, h2, Multiset.add_cons, Multiset.add_cons]

theorem runningJobs_replicate_idle (k : ℕ) :
    (List.replicate k WorkerStatus.idle).filterMap workerJob = [] := by
  induction k with
  | zero => rfl
  | succ k ih => rw [List.replicate_succ, List.filterMap_cons, workerJob_idle]; exact ih

theorem runningJobs_of_allDone {s : SchedulerState} (h : allWorkersDone s) :
    runningJobs s = [] := by
  unfold runningJobs
  rw [List.filterMap_eq_nil_iff]
  intro w hw
  rw [h w hw]
  rfl

/-- The invariant holds at the batch's starting state. -/
theorem schedInv_init (jobFails : ℕ → Bool) (total concurrency : ℕ) :
    SchedInv jobFails total (initState concurrency total) := by
  refine ⟨∅, ?_, rfl, rfl, ?_⟩
  · unfold runningJobs initState claimedCount
    rw [runningJobs_replicate_idle]
    simp
  · intro _ hmem
    exact absurd (List.eq_of_mem_replicate hmem) (by decide)

/-- Every scheduler step preserves the invariant. -/
theorem schedStep_preserves_inv {jobFails : ℕ → Bool} {total : ℕ}
    {s s' : SchedulerState} (hstep : SchedStep jobFails total s s')
    (hinv : SchedInv jobFails total s) : SchedInv jobFails total s' := by
  obtain ⟨fin, hpart, hcomp, hfail, hdone⟩ := hinv
  cases hstep with
  | claimJob nI w₁ w₂ comp f hlt =>
    refine ⟨fin, ?_, hcomp, hfail, ?_⟩
    · simp only [runningJobs, claimedCount] at hpart ⊢
      rw [filterMap_workerJob_mid_none _ _ _ workerJob_idle] at hpart
      rw [filterMap_workerJob_mid_some]
      have hmin1 : min nI total = nI := by omega
      have hmin2 : min (nI + 1) total = nI + 1 := by omega
      rw [hmin1] at hpart
      rw [hmin2]
      have hrange : (Finset.range (nI + 1)).val = nI ::ₘ (Finset.range nI).val := by
        rw [Finset.range_succ, Finset.insert_val_of_not_mem (by simp)]
      rw [hrange, ← hpart]
      exact (multiset_cons_middle _ _ _ _).symm
    · intro _ hmem
      show total ≤ nI + 1
      have hmem' : WorkerStatus.done ∈ w₁ ++ WorkerStatus.idle :: w₂ := by
        simp only [List.mem_append, List.mem_cons] at hmem ⊢
        rcases hmem with h | h | h
        · exact Or.inl h
        · exact absurd h (by simp)
        · exact Or.inr (Or.inr h)
      exact Nat.le_succ_of_le (hdone rfl hmem')
  | claimExhausted nI w₁ w₂ comp f hge =>
    refine ⟨fin, ?_, hcomp, hfail, ?_⟩
    · simp only [runningJobs, claimedCount] at hpart ⊢
      rw [filterMap_workerJob_mid_none _ _ _ workerJob_idle] at hpart
      rw [filterMap_workerJob_mid_none _ _ _ workerJob_done]
      have hmin : min (nI + 1) total = min nI total := by omega
      rw [hmin]
      exact hpart
    · intro _ _
      show total ≤ nI + 1
      omega
  | observeCancel nI w₁ w₂ comp f =>
    refine ⟨fin, ?_, hcomp, hfail, ?_⟩
    · simp only [runningJobs, claimedCount] at hpart ⊢
      rw [filterMap_workerJob_mid_none _ _ _ workerJob_idle] at hpart
      rw [filterMap_workerJob_mid_none _ _ _ workerJob_done]
      exact hpart
    · intro hfalse _
      exact Bool.noConfusion hfalse
  | finishOk nI cflag w₁ w₂ comp f job hjob =>
    simp only [runningJobs, claimedCount] at hpart
    rw [filterMap_workerJob_mid_some] at hpart
    have hnodup : (fin.val + (↑(w₁.filterMap workerJob ++ job :: w₂.filterMap workerJob) : Multiset ℕ)).Nodup := by
      rw [hpart]
      exact (Finset.range (min nI total)).nodup
    have hnotfin : job ∉ fin := by
      intro hj
      have hdisj := (Multiset.nodup_add.mp hnodup).2.2
      have hjv : job ∈ fin.val := hj
      exact Multiset.disjoint_left.mp hdisj hjv (by simp)
    have hcomp' : comp = (Finset.filter (fun j => jobFails j = false) fin).card := hcomp
    have hfail' : f = (Finset.filter (fun j => jobFails j = true) fin).card := hfail
    refine ⟨insert job fin, ?_, ?_, ?_, ?_⟩
    · simp only [runningJobs, claimedCount]
      rw [filterMap_workerJob_mid_none _ _ _ workerJob_idle]
      rw [Finset.insert_val_of_not_mem hnotfin]
      rw [← hpart, Multiset.cons_add, multiset_cons_middle]
    · show comp + 1 = _
      rw [Finset.filter_insert, if_pos hjob,
        Finset.card_insert_of_not_mem (fun hj => hnotfin (Finset.mem_of_mem_filter job hj))]
      omega
    · show f = _
      rw [Finset.filter_insert, if_neg (by rw [hjob]; simp)]
      exact hfail'
    · intro hc hmem'
      apply hdone hc
      simp only [List.mem_append, List.mem_cons] at hmem' ⊢
      rcases hmem' with h | h | h
      · exact Or.inl h
      · exact absurd h (by simp)
      · exact Or.inr (Or.inr h)
  | finishFail nI cflag w₁ w₂ comp f job hjob =>
    simp only [runningJobs, claimedCount] at hpart
    rw [filterMap_workerJob_mid_some] at hpart
    have hnodup : (fin.val + (↑(w₁.filterMap workerJob ++ job :: w₂.filterMap workerJob) : Multiset ℕ)).Nodup := by
      rw [hpart]
      exact (Finset.range (min nI total)).nodup
    have hnotfin : job ∉ fin := by
      intro hj
      have hdisj := (Multiset.nodup_add.mp hnodup).2.2
      have hjv : job ∈ fin.val := hj
      exact Multiset.disjoint_left.mp hdisj hjv (by simp)
    have hcomp' : comp = (Finset.filter (fun j => jobFails j = false) fin).card := hcomp
    have hfail' : f = (Finset.filter (fun j => jobFails j = true) fin).card := hfail
    refine ⟨insert job fin, ?_, ?_, ?_, ?_⟩
    · simp only [runningJobs, claimedCount]
      rw [filterMap_workerJob_mid_none _ _ _ workerJob_idle]
      rw [Finset.insert_val_of_not_mem hnotfin]
      rw [← hpart, Multiset.cons_add, multiset_cons_middle]
    · show comp = _
      rw [Finset.filter_insert, if_neg (by rw [hjob]; simp)]
      exact hcomp'
    · show f + 1 = _
      rw [Finset.filter_insert, if_pos hjob,
        Finset.card_insert_of_not_mem (fun hj => hnotfin (Finset.mem_of_mem_filter job hj))]
      omega
    · intro hc hmem'
      apply hdone hc
      simp only [List.mem_append, List.mem_cons] at hmem' ⊢
      rcases hmem' with h | h | h
      · exact Or.inl h
      · exact absurd h (by simp)
      · exact Or.inr (Or.inr h)
  | requestCancel nI ws comp f =>
    refine ⟨fin, hpart, hcomp, hfail, ?_⟩
    intro hfalse _
    exact Bool.noConfusion hfalse

/-- The invariant holds at every reachable state. -/
theorem schedReachable_inv {jobFails : ℕ → Bool} {total : ℕ}
    {s₀ s : SchedulerState} (hrun : SchedReachable jobFails total s₀ s)
    (hinv : SchedInv jobFails total s₀) : SchedInv jobFails total s := by
  induction hrun with
  | refl => exact hinv
  | tail _ hstep ih => exact schedStep_preserves_inv hstep ih

/-- Once cancellation is set, a step keeps it set and freezes the claim
cursor: no new job is claimed. -/
theorem schedStep_cancelled_frozen {jobFails : ℕ → Bool} {total : ℕ}
    {s s' : SchedulerState} (hstep : SchedStep jobFails total s s')
    (hc : s.cancelled = true) :
    s'.cancelled = true ∧ s'.nextIndex = s.nextIndex := by
  cases hstep <;> simp_all

/-- Transitive version of `schedStep_cancelled_frozen`. -/
theorem schedReachable_cancelled_frozen {jobFails : ℕ → Bool} {total : ℕ}
    {s s' : SchedulerState} (hrun : SchedReachable jobFails total s s')
    (hc : s.cancelled = true) :
    s'.cancelled = true ∧ s'.nextIndex = s.nextIndex := by
  induction hrun with
  | refl => exact ⟨hc, rfl⟩
  | tail _ hstep ih =>
    obtain ⟨h1, h2⟩ := schedStep_cancelled_frozen hstep ih.1
    exact ⟨h1, h2.trans ih.2⟩

/-- In a drained state the invariant pins the tallies: the settled set is
exactly the claimed prefix. -/
theorem schedInv_final_counts {jobFails : ℕ → Bool} {total : ℕ}
    {s : SchedulerState} (hinv : SchedInv jobFails total s)
    (hdone : allWorkersDone s) :
    s.completed = ((Finset.range (claimedCount total s)).filter
        (fun j => jobFails j = false)).card ∧
    s.failed = ((Finset.range (claimedCount total s)).filter
        (fun j => jobFails j = true)).card ∧
    processedCount s = claimedCount total s := by
  obtain ⟨fin, hpart, hcomp, hfail, _⟩ := hinv
  rw [runningJobs_of_allDone hdone] at hpart
  have hfin : fin = Finset.range (claimedCount total s) := by
    apply Finset.val_inj.mp
    rw [← hpart]
    simp
  subst hfin
  refine ⟨hcomp, hfail, ?_⟩
  show s.completed + s.failed = _
  rw [hcomp, hfail]
  have hunion : ((Finset.range (claimedCount total s)).filter (fun j => jobFails j = true)) =
      ((Finset.range (claimedCount total s)).filter (fun j => ¬ (jobFails j = false))) := by
    apply Finset.filter_congr
    intro j _
    cases h : jobFails j <;> simp
  rw [hunion, Finset.filter_card_add_filter_neg_card_eq_card, Finset.card_range]

/-- A step never changes the size of the worker pool. -/
theorem schedStep_workers_length {jobFails : ℕ → Bool} {total : ℕ}
    {s s' : SchedulerState} (hstep : SchedStep jobFails total s s') :
    s'.workers.length = s.workers.length := by
  cases hstep <;> simp

/-- Transitive version of `schedStep_workers_length`. -/
theorem schedReachable_workers_length {jobFails : ℕ → Bool} {total : ℕ}
    {s s' : SchedulerState} (hrun : SchedReachable jobFails total s s') :
    s'.workers.length = s.workers.length := by
  induction hrun with
  | refl => rfl
  | tail _ hstep ih => exact (schedStep_workers_length hstep).trans ih

/-! ## Claim C5 — uncancelled batches attempt every job, tolerating failures -/

/-- C5: in every run of the scheduler that drains without cancellation,
every job is attempted exactly once and each failure is recorded against
its job only: the final tallies are exactly the success and failure counts
over the whole job range, and `completed + failed = total` — no job
failure aborts the rest of the batch.  Instantiated by its witness at
concurrency 2 over 5 jobs with job index 2 (the third job) always failing,
giving exactly 4 successes and 1 failure. -/
theorem scheduler_uncancelled_tally (jobFails : ℕ → Bool)
    (concurrency total : ℕ) (s : SchedulerState)
    (hconc : 1 ≤ concurrency)
    (hrun : SchedReachable jobFails total (initState concurrency total) s)
    (hdone : allWorkersDone s)
    (hnc : s.cancelled = false) :
    s.completed = ((Finset.range total).filter (fun j => jobFails j = false)).card ∧
    s.failed = ((Finset.range total).filter (fun j => jobFails j = true)).card ∧
    processedCount s = total := by
  have hinv := schedReachable_inv hrun (schedInv_init jobFails total concurrency)
  have hcounts := schedInv_final_counts hinv hdone
  have hclaim : claimedCount total s = total := by
    cases htot : total with
    | zero => simp [claimedCount]
    | succ t =>
      have hlen : s.workers.length = min concurrency (t + 1) := by
        have := schedReachable_workers_length hrun
        rw [htot] at this
        simpa [initState] using this
      have hpos : 0 < s.workers.length := by
        rw [hlen]
        omega
      obtain ⟨w, hw⟩ : ∃ w, w ∈ s.workers := by
        cases hws : s.workers with
        | nil => rw [hws] at hpos; cases hpos
        | cons a l => exact ⟨a, hws ▸ List.mem_cons_self a l⟩
      have hwdone : WorkerStatus.done ∈ s.workers := by
        rw [← hdone w hw]
        exact hw
      obtain ⟨_, _, _, _, hd⟩ := hinv
      have hge := hd hnc hwdone
      unfold claimedCount
      omega
  rw [hclaim] at hcounts
  exact hcounts

/-- C5 witness: a complete run at concurrency 2 over 5 jobs in which job
index 2 always fails, ending with tallies 4 and 1 and all 5 jobs
processed. -/
theorem scheduler_uncancelled_tally_witness :
    SchedReachable (fun j => decide (j = 2)) 5 (initState 2 5)
      ⟨7, false, [.done, .done], 4, 1⟩ ∧
    (⟨7, false, [.done, .done], 4, 1⟩ : SchedulerState).completed = 4 ∧
    (⟨7, false, [.done, .done], 4, 1⟩ : SchedulerState).failed = 1 ∧
    processedCount ⟨7, false, [.done, .done], 4, 1⟩ = 5 := by
  have hreach : SchedReachable (fun j => decide (j = 2)) 5 (initState 2 5)
      ⟨7, false, [.done, .done], 4, 1⟩ := by
    refine Relation.ReflTransGen.head (SchedStep.claimJob 0 [] [.idle] 0 0 (by norm_num)) ?_
    refine Relation.ReflTransGen.head (SchedStep.finishOk 1 false [] [.idle] 0 0 0 (by decide)) ?_
    refine Relation.ReflTransGen.head (SchedStep.claimJob 1 [] [.idle] 1 0 (by norm_num)) ?_
    refine Relation.ReflTransGen.head (SchedStep.finishOk 2 false [] [.idle] 1 0 1 (by decide)) ?_
    refine Relation.ReflTransGen.head (SchedStep.claimJob 2 [] [.idle] 2 0 (by norm_num)) ?_
    refine Relation.ReflTransGen.head (SchedStep.finishFail 3 false [] [.idle] 2 0 2 (by decide)) ?_
    refine Relation.ReflTransGen.head (SchedStep.claimJob 3 [] [.idle] 2 1 (by norm_num)) ?_
    refine Relation.ReflTransGen.head (SchedStep.finishOk 4 false [] [.idle] 2 1 3 (by decide)) ?_
    refine Relation.ReflTransGen.head (SchedStep.claimJob 4 [] [.idle] 3 1 (by norm_num)) ?_
    refine Relation.ReflTransGen.head (SchedStep.finishOk 5 false [] [.idle] 3 1 4 (by decide)) ?_
    refine Relation.ReflTransGen.head (SchedStep.claimExhausted 5 [] [.idle] 4 1 (by norm_num)) ?_
    refine Relation.ReflTransGen.head (SchedStep.claimExhausted 6 [.done] [] 4 1 (by norm_num)) ?_
    exact Relation.ReflTransGen.refl
  have h := scheduler_uncancelled_tally (fun j => decide (j = 2)) 2 5
    ⟨7, false, [.done, .done], 4, 1⟩ (by norm_num) hreach
    (show ∀ w ∈ ([WorkerStatus.done, WorkerStatus.done] : List WorkerStatus),
        w = WorkerStatus.done by decide)
    rfl
  exact ⟨hreach, h.1.trans (by decide), h.2.1.trans (by decide), h.2.2⟩

/-! ## Claim C4 — cancellation: no new claims, claimed jobs settle, drain -/

/-- C4: in every run, once cancellation is observed no new job is claimed
(the claim cursor is frozen from the cancellation point on and the
cancelled flag never resets); every job claimed before cancellation still
settles — in the drained state no worker holds a job and the tallies
account for exactly the jobs claimed at cancellation time; and the
cancelled summary, produced only once all workers have returned, reports
`completed + failed` equal to the number of jobs claimed at cancellation
time, which is at most the total — hence between the claimed count and the
total, as the claim states. -/
theorem scheduler_cancellation_drain (jobFails : ℕ → Bool)
    (concurrency total : ℕ) (s₁ s₂ : SchedulerState)
    (hrun₁ : SchedReachable jobFails total (initState concurrency total) s₁)
    (hcancel : s₁.cancelled = true)
    (hrun₂ : SchedReachable jobFails total s₁ s₂)
    (hdone : allWorkersDone s₂) :
    s₂.cancelled = true ∧
    s₂.nextIndex = s₁.nextIndex ∧
    runningJobs s₂ = [] ∧
    processedCount s₂ = claimedCount total s₁ ∧
    claimedCount total s₁ ≤ total := by
  obtain ⟨hc2, hfrozen⟩ := schedReachable_cancelled_frozen hrun₂ hcancel
  have hinv := schedReachable_inv (hrun₁.trans hrun₂)
    (schedInv_init jobFails total concurrency)
  have hcounts := schedInv_final_counts hinv hdone
  have hclaims : claimedCount total s₂ = claimedCount total s₁ := by
    unfold claimedCount
    rw [hfrozen]
  refine ⟨hc2, hfrozen, runningJobs_of_allDone hdone, ?_, ?_⟩
  · rw [hcounts.2.2, hclaims]
  · unfold claimedCount
    omega

/-- C4 witness: a run at concurrency 2 over 5 jobs cancelled after one job
is claimed; the claimed job finishes, both workers observe the cancellation
and drain, and the summary reports exactly the one claimed job. -/
theorem scheduler_cancellation_drain_witness :
    SchedReachable (fun _ => false) 5 (initState 2 5)
      ⟨1, true, [.running 0, .idle], 0, 0⟩ ∧
    SchedReachable (fun _ => false) 5 ⟨1, true, [.running 0, .idle], 0, 0⟩
      ⟨1, true, [.done, .done], 1, 0⟩ ∧
    (⟨1, true, [.done, .done], 1, 0⟩ : SchedulerState).cancelled = true ∧
    (⟨1, true, [.done, .done], 1, 0⟩ : SchedulerState).nextIndex = 1 ∧
    runningJobs ⟨1, true, [.done, .done], 1, 0⟩ = [] ∧
    processedCount ⟨1, true, [.done, .done], 1, 0⟩ =
      claimedCount 5 ⟨1, true, [.running 0, .idle], 0, 0⟩ ∧
    claimedCount 5 ⟨1, true, [.running 0, .idle], 0, 0⟩ ≤ 5 := by
  have hreach₁ : SchedReachable (fun _ => false) 5 (initState 2 5)
      ⟨1, true, [.running 0, .idle], 0, 0⟩ := by
    refine Relation.ReflTransGen.head (SchedStep.claimJob 0 [] [.idle] 0 0 (by norm_num)) ?_
    refine Relation.ReflTransGen.head
      (SchedStep.requestCancel 1 [.running 0, .idle] 0 0) ?_
    exact Relation.ReflTransGen.refl
  have hreach₂ : SchedReachable (fun _ => false) 5 ⟨1, true, [.running 0, .idle], 0, 0⟩
      ⟨1, true, [.done, .done], 1, 0⟩ := by
    refine Relation.ReflTransGen.head (SchedStep.finishOk 1 true [] [.idle] 0 0 0 rfl) ?_
    refine Relation.ReflTransGen.head (SchedStep.observeCancel 1 [] [.idle] 1 0) ?_
    refine Relation.ReflTransGen.head (SchedStep.observeCancel 1 [.done] [] 1 0) ?_
    exact Relation.ReflTransGen.refl
  have h := scheduler_cancellation_drain (fun _ => false) 2 5
    ⟨1, true, [.running 0, .idle], 0, 0⟩ ⟨1, true, [.done, .done], 1, 0⟩
    hreach₁ rfl hreach₂
    (show ∀ w ∈ ([WorkerStatus.done, WorkerStatus.done] : List WorkerStatus),
        w = WorkerStatus.done by decide)
  exact ⟨hreach₁, hreach₂, h.1, h.2.1, h.2.2.1, h.2.2.2.1, h.2.2.2.2⟩

end SvgToPng
